import Mathlib

/-!
Verification of the HeapLens heap-dump analyzer against its specification.

The definitions below are a shallow embedding of the Go sources:
  - graph/graph.go, graph/reverse.go, graph/paths.go, graph/retained.go,
    the Lengauer-Tarjan dominator implementation, and the core data types;
  - heapdump/goheap/parser.go (the graph-building binary parser),
    heapdump/goheap/streaming.go (the streaming parser's error recovery
    and length-capped codec), heapdump/goheap/records.go;
  - heapdump/registry.go (parser registry) and the JSON fixture adapter.

Go maps are modeled as association lists (insertion order standing in for
one iteration order; claims sensitive to iteration order treat the order
as a parameter).  Go machine integers are modeled as Nat, with explicit
wrap-around where the Go code can overflow (varint decoding).  Fallible
Go functions are modeled with Except.  Loops whose termination is not
structural take a fuel argument; theorems about them quantify over fuel
so that they cover the fuel value realizing the Go loop's actual trace.
-/

namespace HeapLens

/-! ## Association-list model of Go maps -/

/-- Lookup in a Go map (nil result for a missing key is `none`). -/
def aget? {κ α : Type} [DecidableEq κ] (m : List (κ × α)) (k : κ) : Option α :=
  (m.find? (fun p => p.1 = k)).map (fun p => p.2)

/-- Lookup with the Go zero-value default for a missing key. -/
def agetD {κ α : Type} [DecidableEq κ] (m : List (κ × α)) (k : κ) (d : α) : α :=
  (aget? m k).getD d

/-- Go map assignment `m[k] = v`: replace the binding if present, else add it. -/
def aset {κ α : Type} [DecidableEq κ] : List (κ × α) → κ → α → List (κ × α)
  | [], k, v => [(k, v)]
  | (k', v') :: rest, k, v =>
      if k' = k then (k, v) :: rest else (k', v') :: aset rest k v

/-- Go `delete(m, k)`. -/
def aerase {κ α : Type} [DecidableEq κ] (m : List (κ × α)) (k : κ) : List (κ × α) :=
  m.filter (fun p => p.1 ≠ k)

theorem aget?_aset {κ α : Type} [DecidableEq κ] (m : List (κ × α)) (k k' : κ) (v : α) :
    aget? (aset m k v) k' = if k' = k then some v else aget? m k' := by
  induction m with
  | nil =>
      by_cases h : k' = k
      · subst h; simp [aset, aget?, List.find?]
      · have h2 : ¬ k = k' := fun hh => h hh.symm
        simp [aset, aget?, List.find?, h, h2]
  | cons p rest ih =>
      obtain ⟨pk, pv⟩ := p
      by_cases hpk : pk = k
      · subst hpk
        by_cases h : k' = pk
        · subst h; simp [aset, aget?, List.find?]
        · have h2 : ¬ pk = k' := fun hh => h hh.symm
          simp [aset, aget?, List.find?, h, h2]
      · by_cases h : k' = pk
        · subst h
          simp [aset, if_neg hpk, aget?, List.find?]
        · have h2 : ¬ pk = k' := fun hh => h hh.symm
          have step : aget? ((pk, pv) :: aset rest k v) k' = aget? (aset rest k v) k' := by
            simp [aget?, List.find?, h2]
          simp only [aset, if_neg hpk]
          rw [step, ih]
          by_cases hk : k' = k
          · simp [hk]
          · simp [hk, aget?, List.find?, h2]

/-! ## Graph data model (graph package: types.go, graph.go)

`ObjID` is `uint64` in Go; object ids in every graph built by the code are
small, so `Nat` models them.  The Go field `Type` is a reserved word in
Lean and is rendered `ty`. -/

structure Object where
  ID : Nat
  ty : String
  Size : Nat
  Ptrs : List Nat
deriving Repr, DecidableEq

/-- In-memory graph: `objects` models the `map[ObjID]*Object` of `MemGraph`
(the list order stands for one iteration order of the map), `roots` the
`Roots.IDs` slice. -/
structure MemGraph where
  objects : List Object
  roots : List Nat
deriving Repr, DecidableEq

/-- Go map assignment over the object store, keyed by `Object.ID`. -/
def objUpsert (o : Object) : List Object → List Object
  | [] => [o]
  | o' :: rest => if o'.ID = o.ID then o :: rest else o' :: objUpsert o rest

/-- `MemGraph.AddObject`: Go map assignment keyed by `obj.ID`. -/
def MemGraph.addObject (g : MemGraph) (o : Object) : MemGraph :=
  { g with objects := objUpsert o g.objects }

/-- `MemGraph.GetObject`: map lookup (nil for a missing id). -/
def MemGraph.getObject (g : MemGraph) (id : Nat) : Option Object :=
  g.objects.find? (fun o => o.ID = id)

/-- Pointer list of the object stored under id `b` (empty when absent);
reads `objects[b].ptrs` in the specification's notation. -/
def ptrsOf (g : MemGraph) (b : Nat) : List Nat :=
  match g.getObject b with
  | some o => o.Ptrs
  | none => []

/-- The graph's ids are unique: `MemGraph` is keyed by id, so any graph
that the Go code builds satisfies this. -/
def NodupIDs (g : MemGraph) : Prop :=
  (g.objects.map Object.ID).Nodup

instance (g : MemGraph) : Decidable (NodupIDs g) := by
  unfold NodupIDs; infer_instance

/-! ## Reverse-edge index (graph/reverse.go) -/

/-- `BuildReverseEdges`: one pass over all objects; for each outgoing
pointer `t` of object `o`, append `o.ID` to `reverse[t]`.  The list order
of `objs` is the `ForEachObject` iteration order. -/
def buildReverseEdges (objs : List Object) : List (Nat × List Nat) :=
  objs.foldl
    (fun rev o =>
      o.Ptrs.foldl (fun rev t => aset rev t (agetD rev t [] ++ [o.ID])) rev)
    []

/-- Referrer list of `a` described directly: every object contributes one
copy of its id per occurrence of `a` in its pointer list, in iteration
order. -/
def revOf (objs : List Object) (a : Nat) : List Nat :=
  objs.flatMap (fun o => (o.Ptrs.filter (fun t => t = a)).map (fun _ => o.ID))

theorem ptrs_fold_get (i a : Nat) (ts : List Nat) (rev : List (Nat × List Nat)) :
    agetD (ts.foldl (fun rev t => aset rev t (agetD rev t [] ++ [i])) rev) a []
      = agetD rev a [] ++ (ts.filter (fun t => t = a)).map (fun _ => i) := by
  induction ts generalizing rev with
  | nil => simp
  | cons t ts ih =>
      simp only [List.foldl_cons]
      rw [ih]
      by_cases h : t = a
      · subst h
        simp [agetD, aget?_aset, List.filter]
      · have h' : ¬ a = t := fun hh => h hh.symm
        simp [agetD, aget?_aset, h, h', List.filter]

theorem buildReverseEdges_fold_get (a : Nat) (objs : List Object)
    (rev : List (Nat × List Nat)) :
    agetD
      (objs.foldl
        (fun rev o =>
          o.Ptrs.foldl (fun rev t => aset rev t (agetD rev t [] ++ [o.ID])) rev)
        rev) a []
      = agetD rev a [] ++ revOf objs a := by
  induction objs generalizing rev with
  | nil => simp [revOf]
  | cons o objs ih =>
      simp only [List.foldl_cons]
      rw [ih, ptrs_fold_get]
      simp [revOf, List.append_assoc]

/-- Characterization of the reverse-edge index. -/
theorem buildReverseEdges_get (objs : List Object) (a : Nat) :
    agetD (buildReverseEdges objs) a [] = revOf objs a := by
  have h := buildReverseEdges_fold_get a objs []
  simpa [buildReverseEdges, agetD, aget?] using h

theorem mem_revOf {objs : List Object} {a b : Nat} (h : b ∈ revOf objs a) :
    ∃ o ∈ objs, o.ID = b ∧ a ∈ o.Ptrs := by
  simp only [revOf, List.mem_flatMap, List.mem_map, List.mem_filter] at h
  obtain ⟨o, ho, t, ⟨ht, hta⟩, hid⟩ := h
  exact ⟨o, ho, hid, by simpa [of_decide_eq_true hta] using ht⟩

/-! ## K shortest paths to roots (graph/paths.go) -/

/-- BFS frontier entry (`searchNode` in `PathsToRoots`): the id under
consideration and the full ancestor sequence so far. -/
structure SearchNode where
  id : Nat
  path : List Nat
deriving Repr, DecidableEq

/-- Inner referrer loop of `PathsToRoots`: for each referrer, skip it when
it already occurs in the current path, emit a finished path when it is a
root (breaking out once `maxPaths` paths are collected), otherwise extend
the frontier.  Returns the updated result list and the nodes to append to
the queue. -/
def stepReferrers (rootSet : List Nat) (maxPaths : Int) (node : SearchNode) :
    List Nat → List (List Nat) → List SearchNode →
    List (List Nat) × List SearchNode
  | [], result, acc => (result, acc)
  | r :: rs, result, acc =>
      if node.path.contains r then
        stepReferrers rootSet maxPaths node rs result acc
      else
        let newPath := node.path ++ [r]
        if rootSet.contains r then
          let result' := result ++ [newPath]
          if (result'.length : Int) ≥ maxPaths then (result', acc)
          else stepReferrers rootSet maxPaths node rs result' acc
        else
          stepReferrers rootSet maxPaths node rs result (acc ++ [⟨r, newPath⟩])

/-- Outer BFS loop of `PathsToRoots` (`for len(queue) > 0 && len(result) <
maxPaths`), FIFO pop order.  `fuel` bounds the number of iterations; the
Go loop always terminates, so any sufficiently large fuel realizes it, and
the soundness theorem below holds for every fuel. -/
def bfsLoop (reverse : List (Nat × List Nat)) (rootSet : List Nat) (maxPaths : Int) :
    Nat → List SearchNode → List (List Nat) → List (List Nat)
  | 0, _, result => result
  | _ + 1, [], result => result
  | fuel + 1, node :: rest, result =>
      if (result.length : Int) < maxPaths then
        let out := stepReferrers rootSet maxPaths node (agetD reverse node.id []) result []
        bfsLoop reverse rootSet maxPaths fuel (rest ++ out.2) out.1
      else result

/-- `PathsToRoots(g, fromId, maxPaths)` with an explicit iteration budget
for the BFS loop. -/
def pathsToRootsFuel (fuel : Nat) (g : MemGraph) (fromId : Nat) (maxPaths : Int) :
    List (List Nat) :=
  if maxPaths ≤ 0 then []
  else
    let reverse := buildReverseEdges g.objects
    let rootSet := g.roots
    if rootSet.contains fromId then [[fromId]]
    else bfsLoop reverse rootSet maxPaths fuel [⟨fromId, [fromId]⟩] []

/-- `PathsToRoots` with a budget that exceeds the Go loop's iteration
count on the graphs evaluated in this development. -/
def pathsToRoots (g : MemGraph) (fromId : Nat) (maxPaths : Int) : List (List Nat) :=
  pathsToRootsFuel (Nat.factorial (g.objects.length + 3)) g fromId maxPaths

/-! ## Immediate dominators (Lengauer-Tarjan implementation)

The Go code reserves id 0 for the synthetic super-root ("The super-root
(ID 0) dominates all roots") and deletes it from the returned map. -/

/-- The reserved super-root id used by `Dominators` (`adj[0]`, `dfs(0, -1)`,
`delete(idom, 0)` in the source). -/
def SUPER : Nat := 0

/-- State produced by the numbering DFS: `dfsNum`, the `vertex` array
(DFS number to vertex id), and the `parent`, `dfnum`, `semi`, `ancestor`,
`best`, `samedom` maps, exactly the maps initialized per vertex by `dfs`. -/
structure DFSState where
  dfsNum : Nat
  vertex : List Nat
  parent : List (Nat × Int)
  dfnum : List (Nat × Nat)
  semi : List (Nat × Nat)
  ancestor : List (Nat × Int)
  best : List (Nat × Nat)
  samedom : List (Nat × Nat)
deriving Repr

/-- The `dfs` closure in `Dominators`: number `v`, record its spanning-tree
parent, then recurse into `adj[v]`.  `fuel` bounds recursion depth; the
depth is at most the number of vertices, so `Dominators` passes a fuel
exceeding it. -/
def ltDFS (adj : List (Nat × List Nat)) : Nat → Nat → Int → DFSState → DFSState
  | 0, _, _, st => st
  | fuel + 1, v, p, st =>
      if (aget? st.dfnum v).isSome then st
      else
        let n := st.dfsNum
        let st := { st with
          dfnum := aset st.dfnum v n
          vertex := st.vertex ++ [v]
          parent := aset st.parent v p
          semi := aset st.semi v n
          ancestor := aset st.ancestor v (-1)
          best := aset st.best v v
          samedom := aset st.samedom v v
          dfsNum := n + 1 }
        (agetD adj v []).foldl (fun st w => ltDFS adj fuel w (Int.ofNat n) st) st

/-- Mutable state of the link-eval forest (`ancestor` and `best`). -/
structure LinkEval where
  ancestor : List (Nat × Int)
  best : List (Nat × Nat)
deriving Repr

/-- The `compress` closure: path compression along `ancestor`, keeping in
`best[v]` the vertex of minimal semidominator number on the compressed
path. -/
def ltCompress (vertex : List Nat) (semi : List (Nat × Nat)) :
    Nat → Nat → LinkEval → LinkEval
  | 0, _, le => le
  | fuel + 1, v, le =>
      let anc := agetD le.ancestor v (-1)
      if anc = -1 then le
      else
        let ancID := vertex.getD anc.toNat 0
        if agetD le.ancestor ancID (-1) ≠ -1 then
          let le := ltCompress vertex semi fuel ancID le
          let le :=
            if agetD semi (agetD le.best ancID 0) 0
                < agetD semi (agetD le.best v 0) 0 then
              { le with best := aset le.best v (agetD le.best ancID 0) }
            else le
          { le with ancestor := aset le.ancestor v (agetD le.ancestor ancID (-1)) }
        else le

/-- The `eval` closure: identity for forest roots, otherwise compress and
return `best[v]`. -/
def ltEval (vertex : List Nat) (semi : List (Nat × Nat)) (fuel : Nat) (v : Nat)
    (le : LinkEval) : Nat × LinkEval :=
  if agetD le.ancestor v (-1) = -1 then (v, le)
  else
    let le := ltCompress vertex semi fuel v le
    (agetD le.best v 0, le)

/-- The pieces of state `processEdge` can change (`semi` plus the
link-eval forest touched through `eval`). -/
structure SemiState where
  semi : List (Nat × Nat)
  le : LinkEval
deriving Repr

/-- `processEdge(v, w)`: skip unreachable predecessors, compute the
candidate `u`, and lower `semi[w]` when `semi[u]` is smaller. -/
def ltProcessEdge (vertex : List Nat) (dfnum : List (Nat × Nat)) (fuel : Nat)
    (v w : Nat) (ss : SemiState) : SemiState :=
  match aget? dfnum v with
  | none => ss
  | some vNum =>
      let wNum := agetD dfnum w 0
      let ul :=
        if vNum ≤ wNum then (v, ss.le)
        else ltEval vertex ss.semi fuel v ss.le
      let ss := { ss with le := ul.2 }
      if agetD ss.semi ul.1 0 < agetD ss.semi w 0 then
        { ss with semi := aset ss.semi w (agetD ss.semi ul.1 0) }
      else ss

/-- State threaded through the reverse-DFS-order loop of `Dominators`. -/
structure LTRun where
  semi : List (Nat × Nat)
  le : LinkEval
  idom : List (Nat × Nat)
  samedom : List (Nat × Nat)
  bucket : List (Int × List Nat)
deriving Repr

/-- Bucket resolution (`for _, v := range bucket[parent[w]]`): either fix
`idom[v]` to the spanning-tree parent or defer through `samedom`. -/
def ltBucketStep (vertex : List Nat) (parentW : Int) (fuel : Nat) :
    List Nat → LTRun → LTRun
  | [], run => run
  | v :: vs, run =>
      let ue := ltEval vertex run.semi fuel v run.le
      let run := { run with le := ue.2 }
      let run :=
        if agetD run.semi ue.1 0 = agetD run.semi v 0 then
          { run with idom := aset run.idom v (vertex.getD parentW.toNat 0) }
        else
          { run with samedom := aset run.samedom v ue.1 }
      ltBucketStep vertex parentW fuel vs run

/-- One iteration of the `for i := dfsNum - 1; i > 0; i--` loop: process
all predecessors of `w = vertex[i]` (objects in iteration order, then the
super-root's edges), push `w` into its semidominator's bucket, link `w`
to its parent, and resolve the parent's bucket. -/
def ltStep (allObjects : List Object) (adj0 : List Nat) (vertex : List Nat)
    (parent : List (Nat × Int)) (dfnum : List (Nat × Nat)) (fuel : Nat)
    (i : Nat) (run : LTRun) : LTRun :=
  let w := vertex.getD i 0
  let ss : SemiState := ⟨run.semi, run.le⟩
  let ss := allObjects.foldl
    (fun ss obj => obj.Ptrs.foldl
      (fun ss ptr =>
        if ptr = w then ltProcessEdge vertex dfnum fuel obj.ID w ss else ss)
      ss)
    ss
  let ss := adj0.foldl
    (fun ss ptr => if ptr = w then ltProcessEdge vertex dfnum fuel 0 w ss else ss)
    ss
  let run := { run with semi := ss.semi, le := ss.le }
  let sw : Int := Int.ofNat (agetD run.semi w 0)
  let run := { run with bucket := aset run.bucket sw (agetD run.bucket sw [] ++ [w]) }
  let pw := agetD parent w (-1)
  let run :=
    if pw ≠ -1 then
      { run with le := { run.le with ancestor := aset run.le.ancestor w pw } }
    else run
  let bs := agetD run.bucket pw []
  let run := ltBucketStep vertex pw fuel bs run
  { run with bucket := aset run.bucket pw [] }

/-- `Dominators(g)`: Lengauer-Tarjan over the graph augmented with the
super-root 0 pointing at all roots; the super-root is deleted from the
returned map. -/
def Dominators (g : MemGraph) : List (Nat × Nat) :=
  let allObjects := g.objects
  let adj : List (Nat × List Nat) :=
    if g.roots.length > 0 then aset [] SUPER g.roots else []
  let adj := allObjects.foldl (fun adj obj => aset adj obj.ID obj.Ptrs) adj
  let fuel := allObjects.length + 2
  let d := ltDFS adj fuel SUPER (-1) ⟨0, [], [], [], [], [], [], []⟩
  let adj0 := agetD adj SUPER []
  let run0 : LTRun := ⟨d.semi, ⟨d.ancestor, d.best⟩, [], d.samedom, []⟩
  let run := ((List.range' 1 (d.dfsNum - 1)).reverse).foldl
    (fun run i => ltStep allObjects adj0 d.vertex d.parent d.dfnum fuel i run)
    run0
  let idom := (List.range' 1 (d.dfsNum - 1)).foldl
    (fun idom i =>
      let w := d.vertex.getD i 0
      let sd := agetD run.samedom w 0
      if sd ≠ w then aset idom w (agetD idom sd 0) else idom)
    run.idom
  aerase idom SUPER

/-- `DominatorTree(idom)`: invert the immediate-dominator map into child
lists, anchored at the super-root. -/
def DominatorTree (idom : List (Nat × Nat)) : List (Nat × List Nat) :=
  let tree := idom.foldl (fun t p => aset t p.1 ([] : List Nat)) []
  let tree := aset tree SUPER []
  idom.foldl (fun t p => aset t p.2 (agetD t p.2 [] ++ [p.1])) tree

/-! ## Retained sizes (graph/retained.go) -/

/-- The memoized `computeRetained` closure: own size plus the retained
sizes of the children in the dominator tree.  `fuel` bounds recursion
depth (the dominator tree's depth). -/
def computeRetained (objSizes : List (Nat × Nat)) (tree : List (Nat × List Nat)) :
    Nat → Nat → List (Nat × Nat) → Nat × List (Nat × Nat)
  | 0, _, memo => (0, memo)
  | fuel + 1, nodeID, memo =>
      match aget? memo nodeID with
      | some s => (s, memo)
      | none =>
          let out := (agetD tree nodeID []).foldl
            (fun acc c =>
              let r := computeRetained objSizes tree fuel c acc.2
              (acc.1 + r.1, r.2))
            (agetD objSizes nodeID 0, memo)
          (out.1, aset out.2 nodeID out.1)

/-- `RetainedSize(g)`: post-order aggregation of self-sizes over the
dominator tree; the super-root gets size 0 and is removed from the
result. -/
def RetainedSize (g : MemGraph) : List (Nat × Nat) :=
  let dominators := Dominators g
  let tree := DominatorTree dominators
  let objSizes := g.objects.foldl (fun m o => aset m o.ID o.Size) ([] : List (Nat × Nat))
  let objSizes := aset objSizes SUPER 0
  let fuel := g.objects.length + 3
  let retained := tree.foldl
    (fun memo p => (computeRetained objSizes tree fuel p.1 memo).2) []
  aerase retained SUPER

/-! ## Error model

Go errors in these packages are either package-level sentinels
(`ErrNoParser`, the io errors) or ad-hoc `fmt.Errorf` values carrying
only a message.  `fuelExhausted` is an artifact of bounding Go loops with
fuel; it is never produced on inputs where the Go loop terminates within
the supplied budget. -/

inductive GoError where
  | eof
  | unexpectedEOF
  | overflow
  | errorf (msg : String)
  | noParser
  | fuelExhausted
deriving Repr, DecidableEq

instance {ε α : Type} [DecidableEq ε] [DecidableEq α] : DecidableEq (Except ε α) :=
  fun a b =>
    match a, b with
    | .ok x, .ok y =>
        if h : x = y then isTrue (by simp [h]) else isFalse (by simp [h])
    | .error e, .error f =>
        if h : e = f then isTrue (by simp [h]) else isFalse (by simp [h])
    | .ok _, .error _ => isFalse (by simp)
    | .error _, .ok _ => isFalse (by simp)

/-- Message text of an error, as `err.Error()` renders it. -/
def GoError.message : GoError → String
  | .eof => "EOF"
  | .unexpectedEOF => "unexpected EOF"
  | .overflow => "binary: varint overflows a 64-bit integer"
  | .errorf msg => msg
  | .noParser => "no parser found for dump format"
  | .fuelExhausted => "fuel exhausted"

/-- The kind of an error, as a caller inspecting the error's identity
(sentinel comparison / type assertion) can observe it.  Every
`fmt.Errorf` value is the same generic kind: only its message text
differs. -/
inductive ErrKind where
  | kEOF
  | kUnexpectedEOF
  | kOverflow
  | kGeneric
  | kNoParser
  | kFuel
deriving Repr, DecidableEq

def GoError.kind : GoError → ErrKind
  | .eof => .kEOF
  | .unexpectedEOF => .kUnexpectedEOF
  | .overflow => .kOverflow
  | .errorf _ => .kGeneric
  | .noParser => .kNoParser
  | .fuelExhausted => .kFuel

/-- `fmt.Errorf(pre + "%w", err)` wrapping as used by the parser. -/
def wrapErr (pre : String) (e : GoError) : GoError :=
  .errorf (pre ++ e.message)

/-! ## Varint/byte codec

`binary.ReadUvarint`: 7 payload bits per byte, MSB as continuation, at
most 10 bytes; the accumulator is a `uint64`, so every or-shift is
truncated modulo 2^64.  The first argument counts the remaining allowed
bytes (10 at the start, so the Go loop index `i` equals `10 - (rem+1)`). -/

def readUvarintAux : Nat → List Nat → Nat → Nat → Except GoError (Nat × List Nat)
  | 0, _, _, _ => .error .overflow
  | rem + 1, [], _, _ =>
      .error (if rem = 9 then GoError.eof else GoError.unexpectedEOF)
  | rem + 1, b :: rest, x, s =>
      if b < 128 then
        if rem = 0 ∧ 1 < b then .error .overflow
        else .ok ((x ||| (b <<< s)) % 2 ^ 64, rest)
      else
        readUvarintAux rem rest ((x ||| ((b % 128) <<< s)) % 2 ^ 64) (s + 7)

/-- `readVarint` of both parsers (delegates to `binary.ReadUvarint`). -/
def readUvarint (input : List Nat) : Except GoError (Nat × List Nat) :=
  readUvarintAux 10 input 0 0

/-- `io.ReadFull`: all `n` bytes or an error (`EOF` when nothing was
available, `unexpected EOF` on a partial read). -/
def readFull (input : List Nat) (n : Nat) : Except GoError (List Nat × List Nat) :=
  if n ≤ input.length then .ok (input.take n, input.drop n)
  else .error (if input.isEmpty then GoError.eof else GoError.unexpectedEOF)

def bytesToString (bs : List Nat) : String :=
  String.mk (bs.map Char.ofNat)

/-- `readString` of `goheap` (identical logic in `parser.go` and
`streaming.go`): varint length, 1 MiB sanity cap, then the raw bytes. -/
def readString (input : List Nat) : Except GoError (String × List Nat) := do
  let lr ← readUvarint input
  if lr.1 > 2 ^ 20 then
    .error (.errorf ("string too long: " ++ toString lr.1))
  else do
    let dr ← readFull lr.2 lr.1
    .ok (bytesToString dr.1, dr.2)

/-- `readBytes` of `goheap` (identical logic in `parser.go` and
`streaming.go`): varint length, 1 GiB sanity cap, then the raw bytes. -/
def readBytes (input : List Nat) : Except GoError (List Nat × List Nat) := do
  let lr ← readUvarint input
  if lr.1 > 2 ^ 30 then
    .error (.errorf ("byte slice too long: " ++ toString lr.1))
  else do
    let dr ← readFull lr.2 lr.1
    .ok (dr.1, dr.2)

/-- Skip `n` varints (the shape of all of the parser's skip helpers). -/
def skipVarints : Nat → List Nat → Except GoError (List Nat)
  | 0, input => .ok input
  | n + 1, input => do
      let r ← readUvarint input
      skipVarints n r.2

/-! ## Graph-building binary parser (heapdump/goheap/parser.go) -/

/-- Record tag constants from runtime/heapdump.go. -/
def tagEOF : Nat := 0
def tagObject : Nat := 1
def tagOtherRoot : Nat := 2
def tagType : Nat := 3
def tagGoroutine : Nat := 4
def tagStackFrame : Nat := 5
def tagParams : Nat := 6
def tagFinalizer : Nat := 7
def tagItab : Nat := 8
def tagOSThread : Nat := 9
def tagMemStats : Nat := 10
def tagQueuedFinalizer : Nat := 11
def tagData : Nat := 12
def tagBSS : Nat := 13
def tagDefer : Nat := 14
def tagPanic : Nat := 15
def tagMemProf : Nat := 16
def tagAllocSample : Nat := 17

/-- `typeInfo` of the parser. -/
structure TypeInfo where
  address : Nat
  size : Nat
  name : String
  indirect : Bool
deriving Repr, DecidableEq

/-- Internal parser state (`parser` struct in parser.go); the progress
statistics are irrelevant to graph construction and omitted. -/
structure PState where
  g : MemGraph
  types : List (Nat × TypeInfo)
  addrToObjID : List (Nat × Nat)
  roots : List Nat
  nextObjID : Nat
  bigEndian : Bool
  pointerSize : Nat
  heapStart : Nat
  heapEnd : Nat
  arch : String
  goVersion : String
  numCPUs : Nat
deriving Repr

/-- Fresh parser state as `Parse` constructs it. -/
def initPState : PState :=
  ⟨⟨[], []⟩, [], [], [], 0, false, 0, 0, 0, "", "", 0⟩

/-- `binary.LittleEndian.Uint64/Uint32`: least-significant byte first. -/
def leUint (bs : List Nat) : Nat :=
  bs.foldr (fun b acc => acc * 256 + b) 0

/-- `binary.BigEndian.Uint64/Uint32`: most-significant byte first. -/
def beUint (bs : List Nat) : Nat :=
  bs.foldl (fun acc b => acc * 256 + b) 0

/-- Pointer-value extraction from `data[offset : offset+pointerSize]` as
in `parseObject` (and the streaming parser): 8- and 4-byte widths with
the configured endianness, any other width leaves the value 0. -/
def extractPtr (bigEndian : Bool) (pointerSize : Nat) (data : List Nat)
    (offset : Nat) : Nat :=
  let ptrData := (data.drop offset).take pointerSize
  if pointerSize = 8 then
    if bigEndian then beUint ptrData else leUint ptrData
  else if pointerSize = 4 then
    if bigEndian then beUint ptrData else leUint ptrData
  else 0

/-- Field list of an Object record: `{kind, offset}*` terminated by
`kind = 0`; pointer fields (kind 1) within bounds contribute their
non-null pointer values.  Each iteration consumes at least one byte, so
the caller's fuel (input length + 1) can never run out. -/
def parseFields (bigEndian : Bool) (pointerSize : Nat) (data : List Nat) :
    Nat → List Nat → List Nat → Except GoError (List Nat × List Nat)
  | 0, _, _ => .error .fuelExhausted
  | fuel + 1, input, pointers => do
      let kr ← readUvarint input
      if kr.1 = 0 then .ok (pointers, kr.2)
      else do
        let or ← readUvarint kr.2
        let pointers :=
          if kr.1 = 1 ∧ or.1 + pointerSize ≤ data.length then
            let ptr := extractPtr bigEndian pointerSize data or.1
            if ptr ≠ 0 then pointers ++ [ptr] else pointers
          else pointers
        parseFields bigEndian pointerSize data fuel or.2 pointers

/-- `parser.parseParams`. -/
def parseParams (st : PState) (input : List Nat) :
    Except GoError (PState × List Nat) := do
  let be ← readUvarint input
  let ps ← readUvarint be.2
  let hs ← readUvarint ps.2
  let he ← readUvarint hs.2
  let ar ← readString he.2
  let gv ← readString ar.2
  let nc ← readUvarint gv.2
  .ok ({ st with
    bigEndian := be.1 ≠ 0
    pointerSize := ps.1
    heapStart := hs.1
    heapEnd := he.1
    arch := ar.1
    goVersion := gv.1
    numCPUs := nc.1 }, nc.2)

/-- `parser.parseType`. -/
def parseType (st : PState) (input : List Nat) :
    Except GoError (PState × List Nat) := do
  let ad ← readUvarint input
  let sz ← readUvarint ad.2
  let nm ← readString sz.2
  let ind ← readUvarint nm.2
  .ok ({ st with
    types := aset st.types ad.1 ⟨ad.1, sz.1, nm.1, ind.1 ≠ 0⟩ }, ind.2)

/-- `parser.parseObject`: reads the address, the contents and the field
list, assigns the next dense id, resolves the type name from the first
`pointerSize` bytes, and stores the object.  The extracted pointer values
are computed but the stored object's pointer list is created empty
(`make([]graph.ObjID, 0, len(pointers))`); no later pass fills it in. -/
def parseObject (st : PState) (input : List Nat) :
    Except GoError (PState × List Nat) := do
  let ad ← readUvarint input
  let dr ← readBytes ad.2
  let data := dr.1
  let fr ← parseFields st.bigEndian st.pointerSize data (dr.2.length + 1) dr.2 []
  let objID := st.nextObjID
  let st := { st with
    nextObjID := objID + 1
    addrToObjID := aset st.addrToObjID ad.1 objID }
  let typeName :=
    if st.pointerSize ≤ data.length then
      match aget? st.types (extractPtr st.bigEndian st.pointerSize data 0) with
      | some t => t.name
      | none => "unknown"
    else "unknown"
  let obj : Object := { ID := objID, ty := typeName, Size := data.length, Ptrs := [] }
  .ok ({ st with g := st.g.addObject obj }, fr.2)

/-- `parser.parseOtherRoot`: description, pointer; the pointer is looked
up in the address-to-id map built so far and appended to the roots when
already known. -/
def parseOtherRoot (st : PState) (input : List Nat) :
    Except GoError (PState × List Nat) := do
  let ds ← readString input
  let pr ← readUvarint ds.2
  let st :=
    match aget? st.addrToObjID pr.1 with
    | some objID => { st with roots := st.roots ++ [objID] }
    | none => st
  .ok (st, pr.2)

/-- `parser.parseGoroutine`: 12 varints then the wait-reason string. -/
def parseGoroutine (input : List Nat) : Except GoError (List Nat) := do
  let r ← skipVarints 12 input
  let sr ← readString r
  .ok sr.2

/-- Field-list skipping (`parseStackFrame`, `skipDataSegment`): pairs of
varints until a zero kind. -/
def skipFieldList : Nat → List Nat → Except GoError (List Nat)
  | 0, _ => .error .fuelExhausted
  | fuel + 1, input => do
      let kr ← readUvarint input
      if kr.1 = 0 then .ok kr.2
      else do
        let or ← readUvarint kr.2
        skipFieldList fuel or.2

/-- `parser.parseStackFrame`. -/
def parseStackFrame (input : List Nat) : Except GoError (List Nat) := do
  let a ← skipVarints 3 input
  let dr ← readBytes a
  let b ← skipVarints 3 dr.2
  let nr ← readString b
  skipFieldList (nr.2.length + 1) nr.2

/-- `parser.parseMemStats` as the core parse loop calls it: it skips only
8 varints ("Skip all memstats fields (there are many)" says the comment,
but the loop bound is 8). -/
def parseMemStats (input : List Nat) : Except GoError (List Nat) :=
  skipVarints 8 input

/-- `parser.skipDataSegment`: address, data, field list. -/
def skipDataSegment (input : List Nat) : Except GoError (List Nat) := do
  let a ← readUvarint input
  let dr ← readBytes a.2
  skipFieldList (dr.2.length + 1) dr.2

/-- `parser.skipMemProf`: bucket, size, `nstk` stack frames of
(function, file, line), then allocs and frees. -/
def skipMemProf (input : List Nat) : Except GoError (List Nat) := do
  let b ← readUvarint input
  let sz ← readUvarint b.2
  let ns ← readUvarint sz.2
  let rest ← skipFrames ns.1 ns.2
  skipVarints 2 rest
where
  skipFrames : Nat → List Nat → Except GoError (List Nat)
    | 0, input => .ok input
    | n + 1, input => do
        let fr ← readString input
        let fl ← readString fr.2
        let ln ← readUvarint fl.2
        skipFrames n ln.2

/-- `parser.finalize`: `p.g.SetRoots(graph.Roots{IDs: p.roots})`.  This is
the whole finalization pass: it only installs the collected roots; no
pointer address is rewritten to an id. -/
def finalize (st : PState) : MemGraph :=
  { st.g with roots := st.roots }

/-- The record loop of `parser.parse`: read a tag, dispatch, stop at EOF
(either the EOF record or end of input).  Each iteration consumes at
least one byte, so fuel `input.length + 1` can never be exhausted. -/
def parseRecords : Nat → PState → List Nat → Except GoError MemGraph
  | 0, _, _ => .error .fuelExhausted
  | fuel + 1, st, input =>
      match readUvarint input with
      | .error e =>
          if e = .eof then .ok (finalize st)
          else .error (wrapErr ("reading tag: ") e)
      | .ok (tag, rest) =>
          if tag = tagEOF then .ok (finalize st)
          else if tag = tagParams then
            match parseParams st rest with
            | .error e => .error (wrapErr ("parsing params: ") e)
            | .ok (st, rest) => parseRecords fuel st rest
          else if tag = tagType then
            match parseType st rest with
            | .error e => .error (wrapErr ("parsing type: ") e)
            | .ok (st, rest) => parseRecords fuel st rest
          else if tag = tagObject then
            match parseObject st rest with
            | .error e => .error (wrapErr ("parsing object: ") e)
            | .ok (st, rest) => parseRecords fuel st rest
          else if tag = tagOtherRoot then
            match parseOtherRoot st rest with
            | .error e => .error (wrapErr ("parsing root: ") e)
            | .ok (st, rest) => parseRecords fuel st rest
          else if tag = tagGoroutine then
            match parseGoroutine rest with
            | .error e => .error (wrapErr ("parsing goroutine: ") e)
            | .ok rest => parseRecords fuel st rest
          else if tag = tagStackFrame then
            match parseStackFrame rest with
            | .error e => .error (wrapErr ("parsing stack frame: ") e)
            | .ok rest => parseRecords fuel st rest
          else if tag = tagMemStats then
            match parseMemStats rest with
            | .error e => .error (wrapErr ("parsing memstats: ") e)
            | .ok rest => parseRecords fuel st rest
          else if tag = tagItab then
            match skipVarints 2 rest with
            | .error e => .error (wrapErr ("skipping itab: ") e)
            | .ok rest => parseRecords fuel st rest
          else if tag = tagFinalizer ∨ tag = tagQueuedFinalizer then
            match skipVarints 5 rest with
            | .error e => .error (wrapErr ("skipping finalizer: ") e)
            | .ok rest => parseRecords fuel st rest
          else if tag = tagData ∨ tag = tagBSS then
            match skipDataSegment rest with
            | .error e => .error (wrapErr ("skipping data segment: ") e)
            | .ok rest => parseRecords fuel st rest
          else if tag = tagDefer ∨ tag = tagPanic then
            match skipVarints 5 rest with
            | .error e => .error (wrapErr ("skipping defer/panic: ") e)
            | .ok rest => parseRecords fuel st rest
          else if tag = tagOSThread then
            match skipVarints 3 rest with
            | .error e => .error (wrapErr ("skipping OS thread: ") e)
            | .ok rest => parseRecords fuel st rest
          else if tag = tagMemProf ∨ tag = tagAllocSample then
            match skipMemProf rest with
            | .error e => .error (wrapErr ("skipping mem prof: ") e)
            | .ok rest => parseRecords fuel st rest
          else .error (.errorf ("unknown tag: " ++ toString tag))

/-- The 16 header bytes `"go1.7 heap dump\n"`. -/
def headerBytes : List Nat :=
  [103, 111, 49, 46, 55, 32, 104, 101, 97, 112, 32, 100, 117, 109, 112, 10]

/-- `GoHeapParser.Parse` (via `parser.parse`): verify the header, run the
record loop, wrap any error. -/
def goheapParse (input : List Nat) : Except GoError MemGraph :=
  if input.length < 16 then
    .error (wrapErr ("parsing heap dump: ")
      (wrapErr ("reading header: ")
        (if input.isEmpty then GoError.eof else GoError.unexpectedEOF)))
  else if input.take 16 ≠ headerBytes then
    .error (wrapErr ("parsing heap dump: ")
      (.errorf ("invalid header: " ++ bytesToString (input.take 16))))
  else
    match parseRecords (input.length + 1) initPState (input.drop 16) with
    | .error e => .error (wrapErr ("parsing heap dump: ") e)
    | .ok g => .ok g

/-- `GoHeapParser.CanParse`: the first 16 bytes equal the header. -/
def goheapCanParse (input : List Nat) : Bool :=
  decide (16 ≤ input.length ∧ input.take 16 = headerBytes)

/-! ## Dump encoders (the writer side of the format, from the section 6.1
byte layout, as the repository's own test writers realize it) -/

/-- `binary.PutUvarint` (structural fuel: 10 bytes suffice for 64 bits). -/
def putUvarintAux : Nat → Nat → List Nat
  | 0, _ => []
  | fuel + 1, v =>
      if v < 128 then [v] else (v % 128 + 128) :: putUvarintAux fuel (v / 128)

def putUvarint (v : Nat) : List Nat :=
  putUvarintAux 10 v

/-- Length-prefixed string: varint length then the raw bytes. -/
def putString (s : String) : List Nat :=
  putUvarint s.length ++ s.toList.map Char.toNat

/-- Length-prefixed byte payload. -/
def putBytes (bs : List Nat) : List Nat :=
  putUvarint bs.length ++ bs

/-- An 8-byte little-endian pointer value. -/
def le8 (v : Nat) : List Nat :=
  (List.range 8).map (fun i => v / 256 ^ i % 256)

/-- Scenario F of the specification: header, Params (little-endian,
8-byte pointers, `amd64`, `go1.20.0`), one Type (addr 0x1000, size 16,
name `T`), two 16-byte Objects at 0x2000 and 0x2100 whose payloads store
the type address at offset 0, with the first storing a pointer to the
second at offset 8 (declared as a pointer field), one OtherRoot naming
the first object, and EOF. -/
def scenarioF : List Nat :=
  headerBytes
    ++ putUvarint tagParams
      ++ putUvarint 0 ++ putUvarint 8
      ++ putUvarint 0x1000 ++ putUvarint 0x3000
      ++ putString ("amd64") ++ putString ("go1.20.0") ++ putUvarint 4
    ++ putUvarint tagType
      ++ putUvarint 0x1000 ++ putUvarint 16 ++ putString ("T") ++ putUvarint 0
    ++ putUvarint tagObject
      ++ putUvarint 0x2000 ++ putBytes (le8 0x1000 ++ le8 0x2100)
      ++ putUvarint 1 ++ putUvarint 8 ++ putUvarint 0
    ++ putUvarint tagObject
      ++ putUvarint 0x2100 ++ putBytes (le8 0x1000 ++ le8 0)
      ++ putUvarint 0
    ++ putUvarint tagOtherRoot
      ++ putString ("r") ++ putUvarint 0x2000
    ++ putUvarint tagEOF

/-! ## Full-record parsers (heapdump/goheap/records.go) -/

/-- The named fields of `MemStatsFull` that `parseMemStatsFull` reads
individually (the remaining 49 of the record's 61 varints are skipped by
its trailing loop). -/
structure MemStatsFull where
  Alloc : Nat
  TotalAlloc : Nat
  Sys : Nat
  Lookups : Nat
  Mallocs : Nat
  Frees : Nat
  HeapAlloc : Nat
  HeapSys : Nat
  HeapIdle : Nat
  HeapInuse : Nat
  HeapReleased : Nat
  HeapObjects : Nat
deriving Repr, DecidableEq

/-- `parser.parseMemStatsFull`: 12 named varints followed by 49 skipped
varints — 61 varints in total, the full MemStats record. -/
def parseMemStatsFull (input : List Nat) :
    Except GoError (MemStatsFull × List Nat) := do
  let a1 ← readUvarint input
  let a2 ← readUvarint a1.2
  let a3 ← readUvarint a2.2
  let a4 ← readUvarint a3.2
  let a5 ← readUvarint a4.2
  let a6 ← readUvarint a5.2
  let a7 ← readUvarint a6.2
  let a8 ← readUvarint a7.2
  let a9 ← readUvarint a8.2
  let a10 ← readUvarint a9.2
  let a11 ← readUvarint a10.2
  let a12 ← readUvarint a11.2
  let rest ← skipVarints 49 a12.2
  .ok (⟨a1.1, a2.1, a3.1, a4.1, a5.1, a6.1, a7.1, a8.1, a9.1, a10.1,
    a11.1, a12.1⟩, rest)

/-- A MemStats record body of 61 single-byte varints (value 99, which is
not a recognized tag), followed by the EOF record's tag byte. -/
def memStatsBody : List Nat :=
  List.replicate 61 99 ++ [0]

/-- A dump whose body is Params, the MemStats record above, and EOF. -/
def memStatsDump : List Nat :=
  headerBytes
    ++ putUvarint tagParams
      ++ putUvarint 0 ++ putUvarint 8
      ++ putUvarint 0x1000 ++ putUvarint 0x3000
      ++ putString ("amd64") ++ putString ("go1.20.0") ++ putUvarint 4
    ++ putUvarint tagMemStats
    ++ memStatsBody

/-! ## Streaming parser error recovery (heapdump/goheap/streaming.go)

The record loop is abstracted to a list of per-record outcomes: a record
either decodes (and the loop moves on) or fails with a recoverable error,
in which case the loop consults `handleError` and either continues
(possibly after `seekToNextRecord`) or returns that error.  This is
exactly the shape of every recoverable arm of the Go `switch`. -/

/-- Error-recovery configuration of `StreamingParser` (`maxErrors` is a
Go `int`). -/
structure SPConfig where
  maxErrors : Int
  skipOnError : Bool
deriving Repr, DecidableEq

/-- The configuration `NewStreamingParser` installs. -/
def newStreamingParser : SPConfig :=
  { maxErrors := 100, skipOnError := true }

/-- `StreamingParser.SetErrorRecovery`. -/
def setErrorRecovery (maxErrors : Int) (skipOnError : Bool) : SPConfig :=
  { maxErrors := maxErrors, skipOnError := skipOnError }

/-- Mutable recovery state: the configuration plus `errorCount`. -/
structure SPState where
  cfg : SPConfig
  errorCount : Int
deriving Repr, DecidableEq

/-- `StreamingParser.handleError`: count the error, give the `OnError`
callback a veto, then stop when the budget is exceeded, else continue
exactly when skipping is enabled.  `onErrorFails e = true` models the
callback returning a non-nil error for `e`. -/
def handleError (onErrorFails : GoError → Bool) (st : SPState) (e : GoError) :
    Bool × SPState :=
  let st := { st with errorCount := st.errorCount + 1 }
  if onErrorFails e then (false, st)
  else if st.errorCount > st.cfg.maxErrors then (false, st)
  else if st.cfg.skipOnError then (true, st)
  else (false, st)

/-- Per-record outcome fed to the abstracted record loop. -/
inductive RecordOutcome where
  | ok
  | fails (e : GoError)
deriving Repr, DecidableEq

/-- The error of a failing record. -/
def RecordOutcome.err? : RecordOutcome → Option GoError
  | .ok => none
  | .fails e => some e

/-- The record loop of `StreamingParser.Parse`, restricted to its error
recovery behavior: failing records go through `handleError`; when it
returns false the loop returns that record's error. -/
def runRecords (onErrorFails : GoError → Bool) :
    List RecordOutcome → SPState → Except GoError Unit
  | [], _ => .ok ()
  | .ok :: rest, st => runRecords onErrorFails rest st
  | .fails e :: rest, st =>
      let hs := handleError onErrorFails st e
      if hs.1 then runRecords onErrorFails rest hs.2 else .error e

/-! ## Parser registry (heapdump/registry.go) -/

/-- A registered format adapter (`heapdump.Parser`). -/
structure FormatParser where
  canParse : List Nat → Bool
  parse : List Nat → Except GoError MemGraph

/-- The adapter loop of `Open`: first adapter whose `CanParse` accepts
the preview parses `MultiReader(preview, rest)`. -/
def openLoop (preview rest : List Nat) : List FormatParser → Except GoError MemGraph
  | [] => .error .noParser
  | p :: ps =>
      if p.canParse preview then p.parse (preview ++ rest)
      else openLoop preview rest ps

/-- `heapdump.Open`: buffer up to 4096 preview bytes, then run the
adapter loop over the registered parsers in registration order. -/
def openDump (parsers : List FormatParser) (input : List Nat) :
    Except GoError MemGraph :=
  let n := min 4096 input.length
  openLoop (input.take n) (input.drop n) parsers

/-! ## JSON fixture adapter (JSONStub) -/

/-- A decoded entry of the JSON dump's `objects` array (an absent `id`
field decodes to 0, like an explicit 0). -/
structure JsonObjectRec where
  id : Nat
  ty : String
  size : Nat
  ptrs : List Nat
deriving Repr, DecidableEq

/-- A decoded JSON dump (`jsonDump`). -/
structure JsonDump where
  objects : List JsonObjectRec
  roots : List Nat
deriving Repr, DecidableEq

/-- The validation loop of `JSONStub.Parse`: index of the first entry
whose id is 0, if any. -/
def findZeroID : List JsonObjectRec → Nat → Option Nat
  | [], _ => none
  | o :: rest, i => if o.id = 0 then some i else findZeroID rest (i + 1)

/-- `JSONStub.Parse` on the decoded dump: reject any entry with id 0,
otherwise build the graph and install the roots. -/
def jsonStubParse (d : JsonDump) : Except GoError MemGraph :=
  match findZeroID d.objects 0 with
  | some i =>
      .error (.errorf ("object at index " ++ toString i ++ " missing ID"))
  | none =>
      let g := d.objects.foldl
        (fun (g : MemGraph) o =>
          g.addObject { ID := o.id, ty := o.ty, Size := o.size, Ptrs := o.ptrs })
        (⟨[], []⟩ : MemGraph)
      .ok { g with roots := d.roots }

/-! ## Claim theorems -/

/-- C1: the claim states that after the EOF record the graph-building
parser rewrites every stored pointer address into the pointed-to object's
id, and that parsing the scenario-F dump yields a first object whose
pointer list contains the second object's id.  Evaluating the embedded
parser at exactly that dump shows otherwise: both objects come out with
empty pointer lists (types and the root resolve as expected), because
`parseObject` stores an empty pointer list and `finalize` only installs
the roots — the promised second pass does not exist in the code. -/
theorem c1_no_pointer_resolution :
    goheapParse scenarioF =
      .ok ⟨[⟨0, "T", 16, []⟩, ⟨1, "T", 16, []⟩], [0]⟩ := by decide

/-- C2: the claim states that the super-root id used by `Dominators` is
distinct from every real object id, making the idom map total on
reachable objects including id 0.  In the code the super-root id is 0
while the parser assigns dense ids from 0 (scenario F's first object
gets id 0), and on a graph that stores a root object with id 0 — exactly
what the parser produces for a one-object dump rooted at that object —
`Dominators` returns the empty map, omitting the reachable object 0, and
`RetainedSize` likewise returns nothing. -/
theorem c2_super_root_collision :
    SUPER = 0
    ∧ (goheapParse scenarioF |>.map (fun g => g.objects.map Object.ID)) = .ok [0, 1]
    ∧ 0 ∈ (⟨[⟨0, "x", 16, []⟩], [0]⟩ : MemGraph).roots
    ∧ Dominators ⟨[⟨0, "x", 16, []⟩], [0]⟩ = []
    ∧ RetainedSize ⟨[⟨0, "x", 16, []⟩], [0]⟩ = [] := by decide

/-- The linear-chain graph of the specification's scenario A:
`{1: size 100, ptrs [2]; 2: size 50, ptrs [3]; 3: size 25}`, roots `{1}`. -/
def chainGraph : MemGraph :=
  ⟨[⟨1, "a", 100, [2]⟩, ⟨2, "b", 50, [3]⟩, ⟨3, "c", 25, []⟩], [1]⟩

/-- C3: on the linear chain, `Dominators` returns exactly
`{1: SUPER, 2: 1, 3: 2}` (with `SUPER` the code's reserved super-root id),
`RetainedSize` exactly `{1: 175, 2: 75, 3: 25}`, and `PathsToRoots(G, 3, 5)`
exactly the single path `[3, 2, 1]`. -/
theorem c3_linear_chain :
    Dominators chainGraph = [(3, 2), (2, 1), (1, SUPER)]
    ∧ RetainedSize chainGraph = [(3, 25), (2, 75), (1, 175)]
    ∧ pathsToRoots chainGraph 3 5 = [[3, 2, 1]] := by decide

/-- C6: the claim states that a MemStats record consists of 61 varints,
all of which the core parser skips, leaving the stream at the next tag.
The record is indeed 61 varints (`parseMemStatsFull` consumes exactly
them, leaving the stream at the following EOF tag), but the core parse
loop's `parseMemStats` skips only 8: on that record it leaves 53 record
varints unread, and a full parse of a dump containing the record fails by
misreading the record's ninth varint (value 99 here) as a tag. -/
theorem c6_memstats_skip :
    (parseMemStatsFull memStatsBody |>.map (fun r => r.2)) = .ok [0]
    ∧ parseMemStats memStatsBody = .ok (List.replicate 53 99 ++ [0])
    ∧ goheapParse memStatsDump =
        .error (.errorf ("parsing heap dump: unknown tag: 99")) := by decide

theorem openLoop_eq (preview rest : List Nat) (parsers : List FormatParser) :
    openLoop preview rest parsers =
      match parsers.find? (fun p => p.canParse preview) with
      | some p => p.parse (preview ++ rest)
      | none => .error .noParser := by
  induction parsers with
  | nil => rfl
  | cons p ps ih =>
      by_cases h : p.canParse preview <;>
        simp [openLoop, List.find?_cons, h, ih]

/-- C8: `Open` buffers a preview of the input's first 4096 bytes, queries
each registered parser's `CanParse` on that preview in registration
order, gives the first parser that claims the stream the full input (the
preview bytes prepended back), and returns the no-parser error when no
registered parser claims the input. -/
theorem c8_open_first_claiming (parsers : List FormatParser) (input : List Nat) :
    openDump parsers input =
      match parsers.find? (fun p => p.canParse (input.take 4096)) with
      | some p => p.parse input
      | none => .error .noParser := by
  have hpre : input.take (min 4096 input.length) = input.take 4096 := by
    rcases le_total 4096 input.length with h | h
    · rw [min_eq_left h]
    · rw [min_eq_right h, List.take_length, List.take_of_length_le h]
  calc openDump parsers input
      = openLoop (input.take (min 4096 input.length))
          (input.drop (min 4096 input.length)) parsers := rfl
    _ = _ := by
        rw [openLoop_eq, List.take_append_drop, hpre]

/-- Two objects, both pointing at object 3: the same graph content in the
two possible map-iteration orders. -/
def c7objA : Object := ⟨1, "a", 8, [3]⟩
def c7objB : Object := ⟨2, "b", 8, [3]⟩

/-- C7 counterexample: the claim promises bit-identical output across
runs, including the order of referrer lists.  Go's map iteration order is
not fixed across runs, and `BuildReverseEdges` visits objects in map
order: the two iteration orders of the same two-object graph produce
referrer lists for object 3 that are not equal as lists. -/
theorem c7_map_order_counterexample :
    ([c7objA, c7objB] : List Object).Perm [c7objB, c7objA]
    ∧ agetD (buildReverseEdges [c7objA, c7objB]) 3 [] = [1, 2]
    ∧ agetD (buildReverseEdges [c7objB, c7objA]) 3 [] = [2, 1]
    ∧ agetD (buildReverseEdges [c7objA, c7objB]) 3 []
        ≠ agetD (buildReverseEdges [c7objB, c7objA]) 3 [] := by decide

/-- C7 amended: for a fixed input the parse results are determined as
maps and sets, but outputs whose order depends on map iteration order —
the referrer lists of the reverse-edge index, and hence path enumeration
built on them — are only determined up to permutation: any two iteration
orders of the same object store yield, for every id, referrer lists that
are permutations of each other. -/
theorem c7_reverse_edges_perm (objs objs' : List Object)
    (h : objs.Perm objs') (a : Nat) :
    (agetD (buildReverseEdges objs) a []).Perm
      (agetD (buildReverseEdges objs') a []) := by
  rw [buildReverseEdges_get, buildReverseEdges_get]
  exact h.flatMap_right _

/-- Witness for the amended C7 theorem at the two-object graph above. -/
theorem c7_reverse_edges_perm_witness :
    (agetD (buildReverseEdges [c7objA, c7objB]) 3 []).Perm
      (agetD (buildReverseEdges [c7objB, c7objA]) 3 []) :=
  c7_reverse_edges_perm [c7objA, c7objB] [c7objB, c7objA] (by decide) 3

/-- C9 counterexample: the claim says the over-cap failure is a
`CorruptLength` error distinguishable from other error kinds.  At these
concrete inputs the 1 MiB string-cap failure and an unrelated unknown-tag
failure are both plain `fmt.Errorf` values of the same generic kind —
the code declares no dedicated corrupt-length sentinel or type a caller
could test for. -/
theorem c9_corrupt_length_counterexample :
    readString [129, 128, 64] =
      .error (.errorf ("string too long: " ++ toString 1048577))
    ∧ goheapParse (headerBytes ++ [99]) =
      .error (.errorf ("parsing heap dump: unknown tag: 99"))
    ∧ GoError.kind (.errorf ("string too long: " ++ toString 1048577)) =
      GoError.kind (.errorf ("parsing heap dump: unknown tag: 99")) := by decide

/-- C9 amended: reading a length-prefixed string whose declared length
exceeds 1 MiB, or a byte slice whose declared length exceeds 1 GiB,
fails with a plain formatted error ("string too long" / "byte slice too
long") of the same generic kind as other formatted parse errors — not a
distinguishable `CorruptLength` kind — and declared lengths at or below
the caps are accepted (the read proceeds to the payload). -/
theorem c9_length_caps (input rest : List Nat) (len : Nat)
    (hv : readUvarint input = .ok (len, rest)) :
    (2 ^ 20 < len →
      readString input = .error (.errorf ("string too long: " ++ toString len))
      ∧ GoError.kind (.errorf ("string too long: " ++ toString len)) = .kGeneric)
    ∧ (len ≤ 2 ^ 20 → len ≤ rest.length →
      readString input = .ok (bytesToString (rest.take len), rest.drop len))
    ∧ (2 ^ 30 < len →
      readBytes input = .error (.errorf ("byte slice too long: " ++ toString len))
      ∧ GoError.kind (.errorf ("byte slice too long: " ++ toString len)) = .kGeneric)
    ∧ (len ≤ 2 ^ 30 → len ≤ rest.length →
      readBytes input = .ok (rest.take len, rest.drop len)) := by
  refine ⟨fun hlen => ?_, fun hlen hrest => ?_, fun hlen => ?_, fun hlen hrest => ?_⟩
  · constructor
    · simp only [readString, hv, bind, Except.bind]
      rw [if_pos hlen]
    · rfl
  · simp only [readString, hv, bind, Except.bind]
    rw [if_neg (by omega), readFull, if_pos hrest]
  · constructor
    · simp only [readBytes, hv, bind, Except.bind]
      rw [if_pos hlen]
    · rfl
  · simp only [readBytes, hv, bind, Except.bind]
    rw [if_neg (by omega), readFull, if_pos hrest]

/-- Witness for the amended C9 theorem: the 1 MiB + 1 declared length is
rejected with the formatted error, and a 1-byte declared length is
accepted. -/
theorem c9_length_caps_witness :
    readString [129, 128, 64] =
      .error (.errorf ("string too long: " ++ toString 1048577))
    ∧ readString [1, 65] = .ok ("A", []) := by
  constructor
  · exact ((c9_length_caps [129, 128, 64] [] 1048577 (by decide)).1
      (by decide)).1
  · have h := (c9_length_caps [1, 65] [65] 1 (by decide)).2.1
      (by decide) (by decide)
    simpa using h

/-! ### JSON fixture adapter: C10 -/

theorem mem_objUpsert {o x : Object} {l : List Object}
    (h : x ∈ objUpsert o l) : x = o ∨ x ∈ l := by
  induction l with
  | nil => simpa [objUpsert] using h
  | cons o' rest ih =>
      by_cases ho : o'.ID = o.ID
      · rw [objUpsert, if_pos ho] at h
        rcases List.mem_cons.mp h with rfl | h
        · exact .inl rfl
        · exact .inr (List.mem_cons_of_mem _ h)
      · rw [objUpsert, if_neg ho] at h
        rcases List.mem_cons.mp h with rfl | h
        · exact .inr (List.mem_cons_self _ _)
        · rcases ih h with h1 | h1
          · exact .inl h1
          · exact .inr (List.mem_cons_of_mem _ h1)

theorem findZeroID_eq_none {l : List JsonObjectRec} :
    ∀ {i : Nat}, findZeroID l i = none → ∀ o ∈ l, o.id ≠ 0 := by
  induction l with
  | nil => intro i _ o ho; cases ho
  | cons o' rest ih =>
      intro i h o ho
      by_cases hid : o'.id = 0
      · rw [findZeroID, if_pos hid] at h; cases h
      · rw [findZeroID, if_neg hid] at h
        rcases List.mem_cons.mp ho with rfl | hmem
        · exact hid
        · exact ih h o hmem

theorem findZeroID_of_mem {l : List JsonObjectRec} {o : JsonObjectRec}
    (ho : o ∈ l) (hid : o.id = 0) : ∀ i, ∃ j, findZeroID l i = some j := by
  induction l with
  | nil => cases ho
  | cons o' rest ih =>
      intro i
      by_cases h : o'.id = 0
      · exact ⟨i, by rw [findZeroID, if_pos h]⟩
      · rcases List.mem_cons.mp ho with rfl | hmem
        · exact absurd hid h
        · rcases ih hmem (i + 1) with ⟨j, hj⟩
          exact ⟨j, by rw [findZeroID, if_neg h, hj]⟩

theorem getObject_zero_none {g : MemGraph} (h : ∀ x ∈ g.objects, x.ID ≠ 0) :
    g.getObject 0 = none := by
  rw [MemGraph.getObject, List.find?_eq_none]
  intro x hx
  simpa using h x hx

theorem jsonBuild_id_ne_zero (objs : List JsonObjectRec) :
    ∀ (g : MemGraph), (∀ x ∈ g.objects, x.ID ≠ 0) → (∀ o ∈ objs, o.id ≠ 0) →
      ∀ x ∈ (objs.foldl
        (fun (g : MemGraph) o =>
          g.addObject { ID := o.id, ty := o.ty, Size := o.size, Ptrs := o.ptrs })
        g).objects, x.ID ≠ 0 := by
  induction objs with
  | nil => intro g hg _ x hx; exact hg x hx
  | cons o rest ih =>
      intro g hg hobjs x hx
      rw [List.foldl_cons] at hx
      refine ih _ ?_ (fun o' ho' => hobjs o' (List.mem_cons_of_mem _ ho')) x hx
      intro y hy
      rcases mem_objUpsert hy with rfl | hy'
      · simpa using hobjs o (List.mem_cons_self _ _)
      · exact hg y hy'

/-- C10: `JSONStub.Parse` rejects, with the missing-ID error, every
decoded JSON dump whose objects array contains an entry with id 0 (a
missing `id` field decodes to 0 as well), and therefore every graph it
successfully produces contains no object with id 0. -/
theorem c10_json_zero_id (d : JsonDump) :
    ((∃ o ∈ d.objects, o.id = 0) →
      ∃ i : Nat, jsonStubParse d =
        .error (.errorf ("object at index " ++ toString i ++ " missing ID")))
    ∧ (∀ g, jsonStubParse d = .ok g → g.getObject 0 = none) := by
  constructor
  · rintro ⟨o, ho, hid⟩
    rcases findZeroID_of_mem ho hid 0 with ⟨j, hj⟩
    exact ⟨j, by rw [jsonStubParse, hj]⟩
  · intro g hg
    rw [jsonStubParse] at hg
    cases hz : findZeroID d.objects 0 with
    | some i => rw [hz] at hg; cases hg
    | none =>
        rw [hz] at hg
        have hgeq := Except.ok.inj hg
        have hall : ∀ o ∈ d.objects, o.id ≠ 0 := findZeroID_eq_none hz
        refine getObject_zero_none ?_
        intro x hx
        have hobjs : g.objects =
            (d.objects.foldl
              (fun (g : MemGraph) o =>
                g.addObject { ID := o.id, ty := o.ty, Size := o.size, Ptrs := o.ptrs })
              (⟨[], []⟩ : MemGraph)).objects := by
          rw [← hgeq]
        rw [hobjs] at hx
        exact jsonBuild_id_ne_zero d.objects _ (by intro y hy; cases hy) hall x hx

/-- Witness inputs for C10: a dump with a zero-id entry and a dump
without one. -/
def c10badDump : JsonDump := ⟨[⟨1, "root", 10, [2]⟩, ⟨0, "bad", 5, []⟩], [1]⟩
def c10goodDump : JsonDump := ⟨[⟨1, "root", 10, [2]⟩, ⟨2, "leaf", 5, []⟩], [1]⟩
def c10goodGraph : MemGraph :=
  ⟨[⟨1, "root", 10, [2]⟩, ⟨2, "leaf", 5, []⟩], [1]⟩

/-- Witness for C10 at concrete dumps. -/
theorem c10_json_zero_id_witness :
    (∃ i : Nat, jsonStubParse c10badDump =
      .error (.errorf ("object at index " ++ toString i ++ " missing ID")))
    ∧ c10goodGraph.getObject 0 = none := by
  constructor
  · exact (c10_json_zero_id c10badDump).1 ⟨⟨0, "bad", 5, []⟩, by decide, rfl⟩
  · exact (c10_json_zero_id c10goodDump).2 c10goodGraph (by decide)

/-! ### Streaming error budget: C5 -/

/-- The errors carried by the failing records of a record stream. -/
def errorsOf (records : List RecordOutcome) : List GoError :=
  records.filterMap RecordOutcome.err?

theorem runRecords_budget (onE : GoError → Bool) (hE : ∀ e, onE e = false)
    (m : Nat) :
    ∀ (records : List RecordOutcome) (c : Nat), c ≤ m →
      m - c < (errorsOf records).length →
      runRecords onE records ⟨⟨(m : Int), true⟩, (c : Int)⟩ =
        .error ((errorsOf records).getD (m - c) GoError.eof) := by
  intro records
  induction records with
  | nil => intro c hc h; simp [errorsOf] at h
  | cons r rest ih =>
      intro c hc h
      cases r with
      | ok =>
          have h' : m - c < (errorsOf rest).length := by
            simpa [errorsOf, RecordOutcome.err?] using h
          have hr := ih c hc h'
          simpa [runRecords, errorsOf, RecordOutcome.err?] using hr
      | fails e =>
          have hcount : errorsOf (.fails e :: rest) = e :: errorsOf rest := by
            simp [errorsOf, RecordOutcome.err?]
          by_cases hcm : c = m
          · subst hcm
            have hgt : ((c : Int) + 1 > (c : Int)) := by omega
            have hidx : c - c = 0 := Nat.sub_self c
            rw [runRecords]
            simp only [handleError, hE, Bool.false_eq_true, if_false,
              if_pos hgt, ite_false]
            rw [hcount, hidx, List.getD_cons_zero]
          · have hlt : c < m := lt_of_le_of_ne hc hcm
            have hnotgt : ¬ ((c : Int) + 1 > (m : Int)) := by omega
            have hcast : ((c : Int) + 1) = ((c + 1 : Nat) : Int) := by push_cast; ring
            have h' : m - (c + 1) < (errorsOf rest).length := by
              rw [hcount] at h
              simp only [List.length_cons] at h
              omega
            have hr := ih (c + 1) (by omega) h'
            have hsub : m - c = (m - (c + 1)) + 1 := by omega
            rw [runRecords]
            simp only [handleError, hE, Bool.false_eq_true, if_false,
              if_neg hnotgt, ite_true]
            rw [hcast, hr, hcount, hsub, List.getD_cons_succ]

/-- C5: the streaming parser's error recovery is configurable through
`SetErrorRecovery` with defaults of 100 for the maximum error count and
true for the skip-on-error flag; and for every record stream (with a
callback that does not itself abort), once the count of recoverable
per-record errors exceeds the configured maximum `m`, the parse loop
stops and returns the error at which the budget was exceeded (the last
error delivered). -/
theorem c5_error_budget :
    (newStreamingParser.maxErrors = 100 ∧ newStreamingParser.skipOnError = true
      ∧ ∀ maxErrors skipOnError,
        (setErrorRecovery maxErrors skipOnError).maxErrors = maxErrors
        ∧ (setErrorRecovery maxErrors skipOnError).skipOnError = skipOnError)
    ∧ ∀ (onE : GoError → Bool) (records : List RecordOutcome) (m : Nat),
        (∀ e, onE e = false) →
        m < (errorsOf records).length →
        runRecords onE records ⟨⟨(m : Int), true⟩, 0⟩ =
          .error ((errorsOf records).getD m GoError.eof) := by
  refine ⟨⟨rfl, rfl, fun _ _ => ⟨rfl, rfl⟩⟩, ?_⟩
  intro onE records m hE h
  have hr := runRecords_budget onE hE m records 0 (Nat.zero_le m)
    (by simpa using h)
  simpa using hr

/-- Witness for C5: with a budget of one error, the second error stops
the parse and is returned. -/
theorem c5_error_budget_witness :
    runRecords (fun _ => false) [.fails .eof, .fails .overflow]
      ⟨⟨(1 : Int), true⟩, 0⟩ = .error .overflow := by
  have h := c5_error_budget.2 (fun _ => false)
    [.fails .eof, .fails .overflow] 1 (fun _ => rfl) (by decide)
  simpa using h

/-! ### Path validity: C4 -/

/-- The edge relation of an emitted path read backwards: `a` is stored in
the pointer list of the object with id `b` (the claim's
`vi ∈ objects[v_{i+1}].ptrs`). -/
def edgeRel (g : MemGraph) (a b : Nat) : Prop :=
  a ∈ ptrsOf g b

/-- A finished path as the claim describes it: starts at the target,
consecutive elements are pointer-connected, ends in a root, no id
repeats. -/
def goodPath (g : MemGraph) (rootSet : List Nat) (fromId : Nat) (p : List Nat) : Prop :=
  p.head? = some fromId ∧ List.Chain' (edgeRel g) p
    ∧ (∃ r, p.getLast? = some r ∧ r ∈ rootSet) ∧ p.Nodup

/-- Invariant of a BFS frontier entry: its path starts at the target,
is pointer-connected, ends at the entry's own id, and repeats no id. -/
def goodNode (g : MemGraph) (fromId : Nat) (n : SearchNode) : Prop :=
  n.path.head? = some fromId ∧ List.Chain' (edgeRel g) n.path
    ∧ n.path.getLast? = some n.id ∧ n.path.Nodup

theorem find?_id_eq {l : List Object} (hn : (l.map Object.ID).Nodup) {o : Object}
    (ho : o ∈ l) : l.find? (fun x => x.ID = o.ID) = some o := by
  induction l with
  | nil => cases ho
  | cons x rest ih =>
      rw [List.map_cons, List.nodup_cons] at hn
      rcases List.mem_cons.mp ho with rfl | hmem
      · simp [List.find?_cons]
      · have hne : ¬ x.ID = o.ID := by
          intro he
          exact hn.1 (he ▸ List.mem_map_of_mem Object.ID hmem)

        simp [List.find?_cons, hne, ih hn.2 hmem]

/-- With unique ids, membership of `r` in the reverse-edge list of `a`
means the object stored under id `r` has `a` in its pointer list. -/
theorem reverse_edgeRel {g : MemGraph} (hg : NodupIDs g) {a r : Nat}
    (h : r ∈ agetD (buildReverseEdges g.objects) a []) : edgeRel g a r := by
  rw [buildReverseEdges_get] at h
  rcases mem_revOf h with ⟨o, ho, hid, hptr⟩
  unfold edgeRel ptrsOf
  rw [← hid, MemGraph.getObject, find?_id_eq hg ho]
  exact hptr

theorem goodNode_extend {g : MemGraph} {fromId : Nat}
    {node : SearchNode} (hn : goodNode g fromId node) {r : Nat}
    (hedge : edgeRel g node.id r) (hnotin : r ∉ node.path) :
    (node.path ++ [r]).head? = some fromId
    ∧ List.Chain' (edgeRel g) (node.path ++ [r])
    ∧ (node.path ++ [r]).getLast? = some r
    ∧ (node.path ++ [r]).Nodup := by
  obtain ⟨hhead, hchain, hlast, hnodup⟩ := hn
  refine ⟨?_, ?_, ?_, ?_⟩
  · rw [List.head?_append, hhead]; rfl
  · refine List.chain'_append.mpr ⟨hchain, List.chain'_singleton r, ?_⟩
    intro x hx y hy
    rw [hlast] at hx
    cases hx
    cases hy
    exact hedge
  · exact List.getLast?_concat _
  · rw [List.nodup_append]
    refine ⟨hnodup, List.nodup_singleton r, ?_⟩
    intro x hx hx'
    rw [List.mem_singleton] at hx'
    exact hnotin (hx' ▸ hx)

theorem stepReferrers_good (g : MemGraph) (rootSet : List Nat) (fromId : Nat)
    (maxPaths : Int) (node : SearchNode) (hn : goodNode g fromId node) :
    ∀ (rs : List Nat) (result : List (List Nat)) (acc : List SearchNode),
      (∀ r ∈ rs, edgeRel g node.id r) →
      (∀ p ∈ result, goodPath g rootSet fromId p) →
      (∀ x ∈ acc, goodNode g fromId x) →
      (∀ p ∈ (stepReferrers rootSet maxPaths node rs result acc).1,
        goodPath g rootSet fromId p)
      ∧ (∀ x ∈ (stepReferrers rootSet maxPaths node rs result acc).2,
        goodNode g fromId x) := by
  intro rs
  induction rs with
  | nil => intro result acc _ hres hacc; exact ⟨hres, hacc⟩
  | cons r rs ih =>
      intro result acc hedge hres hacc
      have hedgeTail : ∀ r' ∈ rs, edgeRel g node.id r' :=
        fun r' hr' => hedge r' (List.mem_cons_of_mem _ hr')
      have hedgeHead : edgeRel g node.id r := hedge r (List.mem_cons_self _ _)
      rw [stepReferrers]
      by_cases hin : node.path.contains r
      · rw [if_pos hin]
        exact ih result acc hedgeTail hres hacc
      · rw [if_neg hin]
        have hnotin : r ∉ node.path := by
          intro hmem
          exact hin (by simpa [List.contains, List.elem_iff] using hmem)
        have hext := goodNode_extend hn hedgeHead hnotin
        by_cases hroot : rootSet.contains r
        · rw [if_pos hroot]
          have hrmem : r ∈ rootSet := by
            simpa [List.contains, List.elem_iff] using hroot
          have hgood : goodPath g rootSet fromId (node.path ++ [r]) :=
            ⟨hext.1, hext.2.1, ⟨r, hext.2.2.1, hrmem⟩, hext.2.2.2⟩
          have hres' : ∀ p ∈ result ++ [node.path ++ [r]],
              goodPath g rootSet fromId p := by
            intro p hp
            rcases List.mem_append.mp hp with hp | hp
            · exact hres p hp
            · rw [List.mem_singleton] at hp
              exact hp ▸ hgood
          by_cases hmax : ((result ++ [node.path ++ [r]]).length : Int) ≥ maxPaths
          · rw [if_pos hmax]
            exact ⟨hres', hacc⟩
          · rw [if_neg hmax]
            exact ih _ acc hedgeTail hres' hacc
        · rw [if_neg hroot]
          have hacc' : ∀ x ∈ acc ++ [⟨r, node.path ++ [r]⟩],
              goodNode g fromId x := by
            intro x hx
            rcases List.mem_append.mp hx with hx | hx
            · exact hacc x hx
            · rw [List.mem_singleton] at hx
              subst hx
              exact ⟨hext.1, hext.2.1, hext.2.2.1, hext.2.2.2⟩
          exact ih result _ hedgeTail hres hacc'

theorem bfsLoop_good (g : MemGraph) (hg : NodupIDs g) (fromId : Nat)
    (maxPaths : Int) :
    ∀ (fuel : Nat) (queue : List SearchNode) (result : List (List Nat)),
      (∀ x ∈ queue, goodNode g fromId x) →
      (∀ p ∈ result, goodPath g g.roots fromId p) →
      ∀ p ∈ bfsLoop (buildReverseEdges g.objects) g.roots maxPaths fuel queue result,
        goodPath g g.roots fromId p := by
  intro fuel
  induction fuel with
  | zero => intro queue result _ hres p hp; exact hres p hp
  | succ fuel ih =>
      intro queue result hq hres p hp
      cases queue with
      | nil => exact hres p (by rwa [bfsLoop] at hp)
      | cons node rest =>
          rw [bfsLoop] at hp
          by_cases hlen : ((result.length : Int) < maxPaths)
          · rw [if_pos hlen] at hp
            have hnode := hq node (List.mem_cons_self _ _)
            have hedge : ∀ r ∈ agetD (buildReverseEdges g.objects) node.id [],
                edgeRel g node.id r :=
              fun r hr => reverse_edgeRel hg hr
            have hstep := stepReferrers_good g g.roots fromId maxPaths node hnode
              (agetD (buildReverseEdges g.objects) node.id []) result []
              hedge hres (by intro x hx; cases hx)
            refine ih _ _ ?_ hstep.1 p hp
            intro x hx
            rcases List.mem_append.mp hx with hx | hx
            · exact hq x (List.mem_cons_of_mem _ hx)
            · exact hstep.2 x hx
          · rw [if_neg hlen] at hp
            exact hres p hp

/-- C4: every path returned by `PathsToRoots` (at any loop budget, hence
in particular at the budget realizing the Go loop's run) is a sequence
`[v0, ..., vk]` with `v0 = from`, each earlier element stored in the
later element's pointer list, the final element a root of the graph, and
no id occurring twice — provided the graph's ids are unique, which holds
for every graph the code builds since its object store is keyed by id. -/
theorem c4_paths_valid (g : MemGraph) (hg : NodupIDs g) (fromId : Nat)
    (maxPaths : Int) (fuel : Nat) :
    ∀ p ∈ pathsToRootsFuel fuel g fromId maxPaths,
      p.head? = some fromId
      ∧ List.Chain' (edgeRel g) p
      ∧ (∃ r, p.getLast? = some r ∧ r ∈ g.roots)
      ∧ p.Nodup := by
  intro p hp
  rw [pathsToRootsFuel] at hp
  by_cases h0 : maxPaths ≤ 0
  · rw [if_pos h0] at hp; cases hp
  · rw [if_neg h0] at hp
    simp only at hp
    by_cases hroot : g.roots.contains fromId
    · rw [if_pos hroot] at hp
      rw [List.mem_singleton] at hp
      subst hp
      refine ⟨rfl, List.chain'_singleton fromId, ⟨fromId, rfl, ?_⟩,
        List.nodup_singleton fromId⟩
      simpa [List.contains, List.elem_iff] using hroot
    · rw [if_neg hroot] at hp
      have hinit : ∀ x ∈ ([⟨fromId, [fromId]⟩] : List SearchNode),
          goodNode g fromId x := by
        intro x hx
        rw [List.mem_singleton] at hx
        subst hx
        exact ⟨rfl, List.chain'_singleton fromId, rfl, List.nodup_singleton fromId⟩
      exact bfsLoop_good g hg fromId maxPaths fuel _ []
        hinit (by intro q hq; cases hq) p hp

/-- Witness for C4: the single path produced on the linear chain
satisfies all four conditions. -/
theorem c4_paths_valid_witness :
    [3, 2, 1].head? = some 3
    ∧ List.Chain' (edgeRel chainGraph) [3, 2, 1]
    ∧ (∃ r, [3, 2, 1].getLast? = some r ∧ r ∈ chainGraph.roots)
    ∧ [3, 2, 1].Nodup :=
  c4_paths_valid chainGraph (by decide) 3 5 720 [3, 2, 1] (by decide)

end HeapLens
